import Mathlib

/-!
Verification of the bison-bin build-and-stage pipeline.

Filesystem paths are modelled as lists of path components; a filesystem
state is the list of existing paths.  A directory exists when it is a
prefix of some recorded path.  The definitions below are shallow
embeddings of the Python functions in pdm_build.py, setup.py and the
bison_bin runtime package.
-/

/-- A path, as its sequence of components (the parts of a pathlib Path). -/
abbrev FsPath := List String

/-- A filesystem state: the list of paths that exist. -/
abbrev FS := List FsPath

/-- Existence test: a path exists when it is a prefix of a recorded path
(directories exist implicitly once something lives under them). -/
def pathExists (t : FsPath) (fs : FS) : Bool :=
  fs.any (fun p => t.isPrefixOf p)

/-- Model of shutil.rmtree: remove the path and everything under it. -/
def rmtree (t : FsPath) (fs : FS) : FS :=
  fs.filter (fun p => ¬ t.isPrefixOf p)

/-- The distinct top-level component names of the archive members, as the
set comprehension in the extract helpers computes them: members with an
empty name are skipped, the others contribute their first component. -/
def topsOf (members : List FsPath) : List String :=
  ((members.filter (fun m => m ≠ [])).map (fun m => m.headD "")).dedup

/-- Model of the extract helper shared by pdm_build.py and setup.py:
remove a pre-existing target, recreate it, unpack every member under it,
then return the single existing top-level subdirectory when there is
exactly one, and the target itself otherwise.  Result: (filesystem after
extraction, returned source root). -/
def extract (members : List FsPath) (target : FsPath) (fs : FS) :
    FS × FsPath :=
  let fs1 := if pathExists target fs then rmtree target fs else fs
  let fs2 := target :: fs1
  let fs3 := fs2 ++ members.map (fun m => target ++ m)
  let tops := topsOf members
  let roots := tops.filter (fun n => pathExists (target ++ [n]) fs3)
  if roots.length = 1 then (fs3, target ++ [roots.headD ""]) else (fs3, target)

/-- Model of the staging copy in BuildPyWithBison.run: remove a
pre-existing target root, then copy the staged install tree below it. -/
def stagePayload (stageFiles : List FsPath) (targetRoot : FsPath) (fs : FS) : FS :=
  let fs1 := if pathExists targetRoot fs then rmtree targetRoot fs else fs
  targetRoot :: fs1 ++ stageFiles.map (fun q => targetRoot ++ q)

/-- Model of the version key in setup.py: the tuple of integers obtained
from the maximal digit runs of the version string. -/
def digitsToNat (cs : List Char) : Nat :=
  cs.foldl (fun n c => n * 10 + (c.toNat - 48)) 0

def versionKey (v : String) : List Nat :=
  ((v.data.splitOnP (fun c => !c.isDigit)).filter (fun r => r ≠ [])).map digitsToNat

/-- Python tuple comparison on integer tuples: lexicographic, a strict
prefix comparing below its extension. -/
def tupLe : List Nat → List Nat → Bool
  | [], _ => true
  | _ :: _, [] => false
  | a :: as, b :: bs => if a < b then true else if b < a then false else tupLe as bs

lemma tupLe_refl : ∀ a : List Nat, tupLe a a = true
  | [] => rfl
  | x :: xs => by
    unfold tupLe
    simp only [lt_irrefl, if_false]
    exact tupLe_refl xs

lemma tupLe_total : ∀ a b : List Nat, tupLe a b = true ∨ tupLe b a = true
  | [], _ => Or.inl rfl
  | _ :: _, [] => Or.inr rfl
  | a :: as, b :: bs => by
    unfold tupLe
    rcases lt_trichotomy a b with h | h | h
    · left; simp [h]
    · subst h
      simp only [lt_irrefl, if_false]
      exact tupLe_total as bs
    · right; simp [h]

lemma tupLe_trans : ∀ a b c : List Nat,
    tupLe a b = true → tupLe b c = true → tupLe a c = true
  | [], _, _, _, _ => rfl
  | _ :: _, [], _, hab, _ => by simp [tupLe] at hab
  | _ :: _, _ :: _, [], _, hbc => by simp [tupLe] at hbc
  | a :: as, b :: bs, c :: cs, hab, hbc => by
    unfold tupLe at hab hbc ⊢
    by_cases h1 : a < b
    · by_cases h2 : b < c
      · simp [lt_trans h1 h2]
      · by_cases h3 : c < b
        · simp [if_neg h2, if_pos h3] at hbc
        · have : b = c := le_antisymm (not_lt.mp h3) (not_lt.mp h2)
          subst this
          simp [h1]
    · by_cases h1b : b < a
      · simp [if_neg h1, h1b] at hab
      · have hba : a = b := le_antisymm (not_lt.mp h1b) (not_lt.mp h1)
        subst hba
        simp only [lt_irrefl, if_false] at hab ⊢
        by_cases h2 : a < c
        · simp [h2]
        · by_cases h3 : c < a
          · simp [if_neg h2, h3] at hbc
          · simp only [if_neg h2, if_neg h3] at hbc ⊢
            exact tupLe_trans as bs cs hab hbc

/-- Ordering of version strings by their numeric key, as used by the
sorted call in discover_latest. -/
def verLe (a b : String) : Prop :=
  tupLe (versionKey a) (versionKey b) = true

instance : DecidableRel verLe := fun a b => by
  unfold verLe; infer_instance

instance : IsTotal String verLe := ⟨fun _ _ => tupLe_total _ _⟩

instance : IsTrans String verLe :=
  ⟨fun _ _ _ hab hbc => tupLe_trans _ _ _ hab hbc⟩

/-- Consume an expected literal from the front of a character list. -/
def dropPref : List Char → List Char → Option (List Char)
  | [], rest => some rest
  | _ :: _, [] => none
  | p :: ps, c :: cs => if p = c then dropPref ps cs else none

/-- The tail of a filename matches the tar-extension alternation of the
pattern when it starts with .tar.gz, .tar.bz2 or .tar.xz (the pattern is
unanchored on the right, as re.finditer searches are). -/
def isTarExt (cs : List Char) : Bool :=
  (".tar.gz".data.isPrefixOf cs) || (".tar.bz2".data.isPrefixOf cs) ||
    (".tar.xz".data.isPrefixOf cs)

/-- Match the version-and-extension part of the filename pattern in
discover_latest: two or three dot-separated digit groups followed by a
recognised tar extension, returning the version group. -/
def parseVersionTar (cs : List Char) : Option String :=
  let d1 := cs.takeWhile Char.isDigit
  let r1 := cs.dropWhile Char.isDigit
  if d1 = [] then none
  else
    match r1 with
    | '.' :: r2 =>
      let d2 := r2.takeWhile Char.isDigit
      let r3 := r2.dropWhile Char.isDigit
      if d2 = [] then none
      else
        match r3 with
        | '.' :: r4 =>
          let d3 := r4.takeWhile Char.isDigit
          let r5 := r4.dropWhile Char.isDigit
          if d3 ≠ [] ∧ isTarExt r5 then
            some (String.mk (d1 ++ '.' :: d2 ++ '.' :: d3))
          else if isTarExt r3 then some (String.mk (d1 ++ '.' :: d2))
          else none
        | _ => if isTarExt r3 then some (String.mk (d1 ++ '.' :: d2)) else none
    | _ => none

/-- Match one listing filename against the project-version-tar pattern of
discover_latest, returning the captured version group. -/
def matchVersion (project : String) (fname : String) : Option String :=
  match dropPref (project.data ++ ['-']) fname.data with
  | none => none
  | some rest => parseVersionTar rest

/-- The set of candidate versions the resolver collects from a listing. -/
def versionsOf (project : String) (fnames : List String) : List String :=
  (fnames.filterMap (matchVersion project)).dedup

/-- Model of discover_latest in setup.py.  The listing argument is none
when the fetch of the release index fails, and otherwise carries the
filenames occurring in the body; the Python sorted call is modelled by a
stable sort under the numeric-key ordering. -/
def discover_latest (listing : Option (List String))
    (project fallback : String) : String :=
  match listing with
  | none => fallback
  | some fnames =>
    let versions := versionsOf project fnames
    if versions = [] then fallback
    else (versions.insertionSort verLe).getLastD fallback

lemma getLastD_mem {α : Type} : ∀ {l : List α}, l ≠ [] → ∀ d : α, l.getLastD d ∈ l
  | [], h, _ => absurd rfl h
  | a :: t, _, d => by
    rw [List.getLastD_cons]
    cases t with
    | nil => exact List.mem_singleton.mpr rfl
    | cons b t2 =>
      exact List.mem_cons_of_mem a (getLastD_mem (List.cons_ne_nil b t2) a)

lemma pairwise_rel_getLastD {α : Type} {r : α → α → Prop}
    (hrefl : ∀ a : α, r a a) :
    ∀ (l : List α) (d : α), l.Pairwise r → ∀ x ∈ l, r x (l.getLastD d)
  | [], _, _, x, hx => absurd hx (List.not_mem_nil x)
  | a :: t, d, hp, x, hx => by
    rcases List.pairwise_cons.mp hp with ⟨ha, hpt⟩
    rw [List.getLastD_cons]
    rcases List.mem_cons.mp hx with rfl | hxt
    · cases t with
      | nil => exact hrefl x
      | cons b t2 =>
        exact ha _ (getLastD_mem (List.cons_ne_nil b t2) x)
    · exact pairwise_rel_getLastD hrefl t a hpt x hxt

/-- C3: on a successfully fetched listing with at least one matching
filename, the resolver returns one of the collected candidate versions,
and its numeric-tuple key is maximal among all of them. -/
theorem resolver_selects_max (project fallback : String)
    (fnames : List String) (hne : versionsOf project fnames ≠ []) :
    discover_latest (some fnames) project fallback ∈ versionsOf project fnames ∧
    ∀ v ∈ versionsOf project fnames,
      tupLe (versionKey v)
        (versionKey (discover_latest (some fnames) project fallback)) = true := by
  have hperm := List.perm_insertionSort verLe (versionsOf project fnames)
  have hsorted := List.sorted_insertionSort verLe (versionsOf project fnames)
  have hsne : (versionsOf project fnames).insertionSort verLe ≠ [] := by
    intro h0
    exact hne (List.Perm.eq_nil (h0 ▸ hperm.symm))
  have hres : discover_latest (some fnames) project fallback =
      ((versionsOf project fnames).insertionSort verLe).getLastD fallback := by
    simp only [discover_latest]
    rw [if_neg hne]
  constructor
  · rw [hres]
    exact hperm.mem_iff.mp (getLastD_mem hsne fallback)
  · intro v hv
    rw [hres]
    exact pairwise_rel_getLastD (fun a => tupLe_refl (versionKey a)) _ fallback
      hsorted v (hperm.mem_iff.mpr hv)

/-- C3 witness: among bison-3.7.1.tar.gz, bison-3.8.2.tar.xz and
bison-3.10.0.tar.bz2 the resolver picks 3.10.0, the numeric-tuple maximum
(string ordering would have ranked 3.8.2 highest). -/
theorem resolver_selects_max_witness :
    discover_latest (some ["bison-3.7.1.tar.gz", "bison-3.8.2.tar.xz",
        "bison-3.10.0.tar.bz2"]) "bison" "3.8.2" = "3.10.0" ∧
    (discover_latest (some ["bison-3.7.1.tar.gz", "bison-3.8.2.tar.xz",
        "bison-3.10.0.tar.bz2"]) "bison" "3.8.2" ∈
      versionsOf "bison" ["bison-3.7.1.tar.gz", "bison-3.8.2.tar.xz",
        "bison-3.10.0.tar.bz2"] ∧
      ∀ v ∈ versionsOf "bison" ["bison-3.7.1.tar.gz", "bison-3.8.2.tar.xz",
        "bison-3.10.0.tar.bz2"],
        tupLe (versionKey v)
          (versionKey (discover_latest (some ["bison-3.7.1.tar.gz",
            "bison-3.8.2.tar.xz", "bison-3.10.0.tar.bz2"]) "bison" "3.8.2")) =
          true) := by
  refine ⟨by decide, resolver_selects_max "bison" "3.8.2" _ (by decide)⟩

/-- C7: the resolver is a total function that returns the fallback both
when the listing fetch fails and when the fetched body contains no
filename matching the pattern. -/
theorem resolver_fallback (project fallback : String) (fnames : List String)
    (hnomatch : fnames.filterMap (matchVersion project) = []) :
    discover_latest none project fallback = fallback ∧
    discover_latest (some fnames) project fallback = fallback := by
  constructor
  · rfl
  · simp only [discover_latest, versionsOf]
    rw [hnomatch]
    rfl

/-- C7 witness: an unreachable endpoint and a body with no matching
filename both yield the fallback. -/
theorem resolver_fallback_witness :
    (["index.html", "bison-latest.zip"].filterMap (matchVersion "bison") = []) ∧
    discover_latest none "bison" "3.8.2" = "3.8.2" ∧
    discover_latest (some ["index.html", "bison-latest.zip"]) "bison" "3.8.2" =
      "3.8.2" := by
  have h := resolver_fallback "bison" "3.8.2" ["index.html", "bison-latest.zip"]
    (by decide)
  exact ⟨by decide, h.1, h.2⟩

lemma extract_fst (members : List FsPath) (target : FsPath) (fs : FS) :
    (extract members target fs).1 =
      (target :: (if pathExists target fs then rmtree target fs else fs)) ++
        members.map (fun m => target ++ m) := by
  unfold extract
  split <;> (dsimp only; split <;> rfl)

lemma not_mem_rmtree {t p : FsPath} {fs : FS} (hpref : t.isPrefixOf p) :
    p ∉ rmtree t fs := by
  intro hmem
  rcases List.mem_filter.mp hmem with ⟨-, hdec⟩
  simp only [decide_eq_true_eq] at hdec
  exact hdec hpref

lemma pathExists_of_mem {t p : FsPath} {fs : FS} (hp : p ∈ fs)
    (hpref : t.isPrefixOf p) : pathExists t fs = true := by
  unfold pathExists
  exact List.any_eq_true.mpr ⟨p, hp, hpref⟩

lemma mem_topsOf_exists {members : List FsPath} {n : String}
    (hn : n ∈ topsOf members) :
    ∃ m ∈ members, m ≠ [] ∧ m.headD "" = n := by
  unfold topsOf at hn
  rcases List.mem_map.mp (List.mem_dedup.mp hn) with ⟨m, hm, hhead⟩
  rcases List.mem_filter.mp hm with ⟨hmem, hne⟩
  simp only [decide_eq_true_eq] at hne
  exact ⟨m, hmem, hne, hhead⟩

lemma topsOf_exists_all (members : List FsPath) (target : FsPath) (fs : FS) :
    ∀ n ∈ topsOf members,
      pathExists (target ++ [n])
        ((target :: (if pathExists target fs then rmtree target fs else fs)) ++
          members.map (fun m => target ++ m)) = true := by
  intro n hn
  rcases mem_topsOf_exists hn with ⟨m, hm, hne, hhead⟩
  apply pathExists_of_mem (p := target ++ m)
  · exact List.mem_append_right _ (List.mem_map.mpr ⟨m, hm, rfl⟩)
  · rw [List.isPrefixOf_iff_prefix, List.prefix_append_right_inj]
    cases m with
    | nil => exact absurd rfl hne
    | cons a as =>
      simp only [List.headD_cons] at hhead
      subst hhead
      exact ⟨as, rfl⟩

/-- C4: extraction returns the single top-level subdirectory of the target
when the archive members have exactly one distinct top-level name, and the
target directory itself when they have zero or several distinct names. -/
theorem extract_root_selection (members : List FsPath) (target : FsPath)
    (fs : FS) :
    ((topsOf members).length = 1 →
      (extract members target fs).2 = target ++ [(topsOf members).headD ""]) ∧
    ((topsOf members).length ≠ 1 →
      (extract members target fs).2 = target) := by
  have hall := topsOf_exists_all members target fs
  have hfilter :
      (topsOf members).filter
        (fun n => pathExists (target ++ [n])
          ((target :: (if pathExists target fs then rmtree target fs else fs)) ++
            members.map (fun m => target ++ m))) = topsOf members :=
    List.filter_eq_self.mpr (fun n hn => hall n hn)
  constructor
  · intro hone
    unfold extract
    simp only [hfilter, hone, eq_self_iff_true, if_true]
  · intro hne
    unfold extract
    simp only [hfilter, if_neg hne]

/-- C4 witness: a two-member archive under one top-level directory yields
that subdirectory; a two-top archive yields the target itself. -/
theorem extract_root_selection_witness :
    ((topsOf [["pkg"], ["pkg", "configure"]]).length = 1 ∧
      (extract [["pkg"], ["pkg", "configure"]] ["work"] []).2 = ["work", "pkg"]) ∧
    ((topsOf [["a"], ["b"]]).length ≠ 1 ∧
      (extract [["a"], ["b"]] ["work"] []).2 = ["work"]) := by
  refine ⟨⟨by decide, ?_⟩, ⟨by decide, ?_⟩⟩
  · have h := (extract_root_selection [["pkg"], ["pkg", "configure"]] ["work"] []).1
      (by decide)
    simpa using h
  · exact (extract_root_selection [["a"], ["b"]] ["work"] []).2 (by decide)

/-- C5: a path that existed under the target before extraction or staging,
other than the target itself and not re-created by the new archive or the
staged tree, does not exist afterwards: the target is fully reset, never
merged. -/
theorem extract_full_reset (members stageFiles : List FsPath)
    (target : FsPath) (fs : FS) (p : FsPath) (hp : p ∈ fs)
    (hpref : target.isPrefixOf p) (hneq : p ≠ target)
    (hnotNew : p ∉ members.map (fun m => target ++ m))
    (hnotStage : p ∉ stageFiles.map (fun q => target ++ q)) :
    p ∉ (extract members target fs).1 ∧ p ∉ stagePayload stageFiles target fs := by
  have hex : pathExists target fs = true := pathExists_of_mem hp hpref
  have hrm : p ∉ rmtree target fs := not_mem_rmtree hpref
  constructor
  · rw [extract_fst]
    simp only [hex, if_true]
    intro hmem
    rcases List.mem_append.mp hmem with hmem1 | hmem2
    · rcases List.mem_cons.mp hmem1 with heq | hmem1
      · exact hneq heq
      · exact hrm hmem1
    · exact hnotNew hmem2
  · unfold stagePayload
    simp only [hex, if_true]
    intro hmem
    rcases List.mem_cons.mp hmem with heq | hmem1
    · exact hneq heq
    · rcases List.mem_append.mp hmem1 with hmem2 | hmem3
      · exact hrm hmem2
      · exact hnotStage hmem3

/-- C5 witness: a stale file a.txt under the target does not survive a
re-run of extraction or of payload staging. -/
theorem extract_full_reset_witness :
    ["t", "a.txt"] ∈ ([["t"], ["t", "a.txt"]] : FS) ∧
    (["t"] : FsPath).isPrefixOf ["t", "a.txt"] = true ∧
    ["t", "a.txt"] ∉ (extract [["pkg"], ["pkg", "x"]] ["t"] [["t"], ["t", "a.txt"]]).1 ∧
    ["t", "a.txt"] ∉ stagePayload [["bin", "tool"]] ["t"] [["t"], ["t", "a.txt"]] := by
  have h := extract_full_reset [["pkg"], ["pkg", "x"]] [["bin", "tool"]] ["t"]
    [["t"], ["t", "a.txt"]] ["t", "a.txt"]
    (by decide) (by decide) (by decide) (by decide) (by decide)
  exact ⟨by decide, by decide, h.1, h.2⟩

/-- Model of get_data_root in runtime.py: an environment override of the
data root wins when set to a non-empty value, else the package-relative
default. -/
def get_data_root (env : String → Option String) (packageRoot : String) :
    String :=
  match env "BISON_BIN_ROOT" with
  | some ov => if ov = "" then packageRoot ++ "/_bison" else ov
  | none => packageRoot ++ "/_bison"

/-- Model of get_binary_path in runtime.py: a non-empty BISON_BIN_PATH
override is returned as-is; otherwise the package-relative candidate is
returned when it exists, and a FileNotFoundError is raised when not. -/
def runtime_get_binary_path (env : String → Option String)
    (packageRoot : String) (fileExists : String → Bool) :
    Except String String :=
  match env "BISON_BIN_PATH" with
  | some ov =>
    if ov = "" then
      let candidate := get_data_root env packageRoot ++ "/bin/bison"
      if fileExists candidate then .ok candidate
      else .error "Bundled bison binary is missing; reinstall bison-bin"
    else .ok ov
  | none =>
    let candidate := get_data_root env packageRoot ++ "/bin/bison"
    if fileExists candidate then .ok candidate
    else .error "Bundled bison binary is missing; reinstall bison-bin"

/-- Model of get_binary_path in the bison_bin package init module: the
payload-relative path, with no environment override consulted. -/
def pkg_get_binary_path (packageRoot : String) : String :=
  packageRoot ++ "/_payload/bin/bison"

/-- Model of main_bison in the CLI wrapper: resolve the binary through
the package init module, error when it is missing, else exec it. -/
def main_bison (env : String → Option String) (packageRoot : String)
    (fileExists : String → Bool) : Except String Unit :=
  let binary := pkg_get_binary_path packageRoot
  if fileExists binary then .ok ()
  else .error ("bison binary not found at " ++ binary)

/-- C1 counterexample: with BISON_BIN_PATH set to a path that does not
exist, the runtime locator succeeds with that path instead of failing,
and the CLI wrapper ignores the override, resolving and naming the
default package-relative path instead. -/
theorem locator_override_counterexample :
    runtime_get_binary_path
      (fun k => if k = "BISON_BIN_PATH" then some "/nonexistent/bison" else none)
      "/site-packages/bison_bin" (fun _ => false) = .ok "/nonexistent/bison" ∧
    main_bison
      (fun k => if k = "BISON_BIN_PATH" then some "/nonexistent/bison" else none)
      "/site-packages/bison_bin" (fun _ => false) =
      .error
        "bison binary not found at /site-packages/bison_bin/_payload/bin/bison" := by
  constructor <;> rfl

/-- C1 amended: with BISON_BIN_PATH set non-empty, the runtime locator
returns that exact value unchanged without any existence check and never
consults the default package-relative candidate, while the CLI wrapper
entry point does not consult the override at all. -/
theorem locator_override_behavior (env : String → Option String)
    (packageRoot ov : String) (h1 : env "BISON_BIN_PATH" = some ov)
    (h2 : ov ≠ "") :
    (∀ fileExists, runtime_get_binary_path env packageRoot fileExists = .ok ov) ∧
    (∀ fileExists env2,
      main_bison env packageRoot fileExists =
        main_bison env2 packageRoot fileExists) := by
  constructor
  · intro fileExists
    unfold runtime_get_binary_path
    rw [h1]
    dsimp only
    rw [if_neg h2]
  · intro fileExists env2
    rfl

/-- C1 amended witness: a concrete environment with the override set. -/
theorem locator_override_behavior_witness :
    (fun k => if k = "BISON_BIN_PATH" then some "/opt/bison" else none)
        "BISON_BIN_PATH" = some "/opt/bison" ∧
    ("/opt/bison" : String) ≠ "" ∧
    runtime_get_binary_path
      (fun k => if k = "BISON_BIN_PATH" then some "/opt/bison" else none)
      "/pkg" (fun _ => false) = .ok "/opt/bison" := by
  refine ⟨rfl, by decide, ?_⟩
  exact (locator_override_behavior
    (fun k => if k = "BISON_BIN_PATH" then some "/opt/bison" else none)
    "/pkg" "/opt/bison" rfl (by decide)).1 (fun _ => false)

/-- The normalized architectures of pdm_build.py. -/
inductive Arch
  | x64
  | aarch64
  | x86
deriving DecidableEq

/-- Lowercasing of the machine string, as str.lower does on the ASCII
machine names platform.machine returns. -/
def strToLower (s : String) : String :=
  String.mk (s.data.map Char.toLower)

/-- Model of the module-level arch computation in pdm_build.py: lowercase
the machine string, map it into the enumerated set, raise otherwise. -/
def archOf (machineRaw : String) : Except String Arch :=
  let machine := strToLower machineRaw
  if machine = "x86_64" ∨ machine = "amd64" then .ok .x64
  else if machine = "aarch64" ∨ machine = "arm64" then .ok .aarch64
  else if machine = "i386" ∨ machine = "i486" ∨ machine = "i586" ∨
      machine = "i686" ∨ machine = "x86" then .ok .x86
  else .error ("unsupported arch " ++ machine)

/-- The CC override build_bison installs per architecture on linux. -/
def ccOverride : Arch → String
  | .x64 => "zig cc -target x86_64-linux-musl"
  | .aarch64 => "zig cc -target aarch64-linux-musl"
  | .x86 => "zig cc -target x86-linux-musl"

/-- Model of the environment handling in build_bison in pdm_build.py: on
the linux platform the environment copy is overlaid with the musl CC
override for the host architecture; elsewhere it is passed through. -/
def buildEnvFor (platform : String) (a : Arch)
    (env : String → Option String) : String → Option String :=
  if platform = "linux" then
    fun k => if k = "CC" then some (ccOverride a) else env k
  else env

/-- C8: the machine string is normalized into the three supported
architectures or rejected with an unsupported-arch error; on linux the
environment gains exactly the musl CC override, on any other platform it
is passed through unmodified. -/
theorem arch_env_selection (m : String) (a : Arch)
    (env : String → Option String) (p k : String) :
    (strToLower m = "x86_64" ∨ strToLower m = "amd64" → archOf m = .ok .x64) ∧
    (strToLower m = "aarch64" ∨ strToLower m = "arm64" → archOf m = .ok .aarch64) ∧
    (strToLower m = "i386" ∨ strToLower m = "i486" ∨ strToLower m = "i586" ∨
      strToLower m = "i686" ∨ strToLower m = "x86" → archOf m = .ok .x86) ∧
    (strToLower m ∉ ["x86_64", "amd64", "aarch64", "arm64", "i386", "i486",
        "i586", "i686", "x86"] →
      archOf m = .error ("unsupported arch " ++ strToLower m)) ∧
    buildEnvFor "linux" a env "CC" = some (ccOverride a) ∧
    (k ≠ "CC" → buildEnvFor "linux" a env k = env k) ∧
    (p ≠ "linux" → buildEnvFor p a env = env) := by
  refine ⟨?_, ?_, ?_, ?_, ?_, ?_, ?_⟩
  · intro h
    rcases h with h | h <;> simp [archOf, h]
  · intro h
    rcases h with h | h <;> simp [archOf, h]
  · intro h
    rcases h with h | h | h | h | h <;> simp [archOf, h]
  · intro h
    simp only [List.mem_cons, List.not_mem_nil, or_false, not_or] at h
    obtain ⟨h1, h2, h3, h4, h5, h6, h7, h8, h9⟩ := h
    simp [archOf, h1, h2, h3, h4, h5, h6, h7, h8, h9]
  · simp [buildEnvFor]
  · intro hk
    simp [buildEnvFor, hk]
  · intro hp
    unfold buildEnvFor
    rw [if_neg hp]

/-- C8 witness: an unsupported machine string is rejected; on linux the
CC override is present and other keys untouched; on darwin the
environment is returned unchanged. -/
theorem arch_env_selection_witness :
    (strToLower "SPARC" ∉ ["x86_64", "amd64", "aarch64", "arm64", "i386",
        "i486", "i586", "i686", "x86"] ∧
      archOf "SPARC" = .error ("unsupported arch " ++ strToLower "SPARC")) ∧
    buildEnvFor "linux" Arch.aarch64 (fun _ => none) "CC" =
      some (ccOverride Arch.aarch64) ∧
    (("PATH" : String) ≠ "CC" ∧
      buildEnvFor "linux" Arch.aarch64 (fun _ => none) "PATH" = none) ∧
    (("darwin" : String) ≠ "linux" ∧
      buildEnvFor "darwin" Arch.aarch64 (fun _ => none) = (fun _ => none)) := by
  obtain ⟨c1, c2, c3, c4, c5, c6, c7⟩ :=
    arch_env_selection "SPARC" Arch.aarch64 (fun _ => none) "darwin" "PATH"
  exact ⟨⟨by decide, c4 (by decide)⟩, c5, ⟨by decide, c6 (by decide)⟩,
    ⟨by decide, c7 (by decide)⟩⟩

/-- Render a path for command-line arguments. -/
def pathStr (p : FsPath) : String :=
  String.intercalate "/" p

/-- Model of subprocess.check_call given an exit-status oracle: success on
exit 0, a CalledProcessError otherwise. -/
def checkCall (exitCode : List String → Nat) (cmd : List String) :
    Except String Unit :=
  if exitCode cmd = 0 then .ok () else .error "called process error"

/-- Model of the build driver in pdm_build.py: extract the archive, fail
before any child process when the source root has no configure script,
else run configure, make and make install in order, aborting on the first
non-zero exit.  Result: (outcome, the child processes spawned, in
order). -/
def buildTarProject (project : String) (members : List FsPath)
    (workdir prefixDir : FsPath) (fs : FS) (extraConfig : List String)
    (exitCode : List String → Nat) :
    Except String Unit × List (List String) :=
  let er := extract members workdir fs
  if pathExists (er.2 ++ ["configure"]) er.1 then
    let cfgCmd :=
      ["bash", "./configure", "--prefix=" ++ pathStr prefixDir] ++ extraConfig
    if exitCode cfgCmd ≠ 0 then (.error "configure failed", [cfgCmd])
    else if exitCode ["make"] ≠ 0 then
      (.error "make failed", [cfgCmd, ["make"]])
    else if exitCode ["make", "install"] ≠ 0 then
      (.error "make install failed", [cfgCmd, ["make"], ["make", "install"]])
    else (.ok (), [cfgCmd, ["make"], ["make", "install"]])
  else (.error ("Missing configure script for " ++ project), [])

/-- C6: when the extracted source root lacks a configure script, the build
driver fails with an error naming the project and spawns no child
process at all. -/
theorem missing_configure_aborts_early (project : String)
    (members : List FsPath) (workdir prefixDir : FsPath) (fs : FS)
    (extraConfig : List String) (exitCode : List String → Nat)
    (h : pathExists ((extract members workdir fs).2 ++ ["configure"])
        (extract members workdir fs).1 = false) :
    buildTarProject project members workdir prefixDir fs extraConfig exitCode =
      (.error ("Missing configure script for " ++ project), []) := by
  unfold buildTarProject
  dsimp only
  rw [h]
  simp

/-- C6 witness: an archive whose single top-level directory has no
configure script. -/
theorem missing_configure_aborts_early_witness :
    pathExists
      ((extract [["pkg"], ["pkg", "README"]] ["work"] []).2 ++ ["configure"])
      (extract [["pkg"], ["pkg", "README"]] ["work"] []).1 = false ∧
    buildTarProject "bison" [["pkg"], ["pkg", "README"]] ["work"] ["prefix"]
      [] [] (fun _ => 0) =
      (.error "Missing configure script for bison", []) := by
  refine ⟨by decide, ?_⟩
  exact missing_configure_aborts_early "bison" [["pkg"], ["pkg", "README"]]
    ["work"] ["prefix"] [] [] (fun _ => 0) (by decide)

/-- Model of the strip loop in setup.py: iterate over the entries of the
bin directory (name, is-regular-file), spawn strip on each regular file,
and keep going when strip exits non-zero (the CalledProcessError is
caught and the binary kept unstripped).  Result: the strip child
processes spawned, in order. -/
def stripBinaries (exitCode : List String → Nat) (stripCmd : String) :
    List (String × Bool) → List (List String)
  | [] => []
  | e :: rest =>
    if e.2 then
      match checkCall exitCode [stripCmd, e.1] with
      | .ok _ => [stripCmd, e.1] :: stripBinaries exitCode stripCmd rest
      | .error _ => [stripCmd, e.1] :: stripBinaries exitCode stripCmd rest
    else stripBinaries exitCode stripCmd rest

/-- Model of the guard of the strip helper: nothing happens when no strip
utility is found on PATH. -/
def stripPhase (exitCode : List String → Nat) (stripWhich : Option String)
    (binEntries : List (String × Bool)) : List (List String) :=
  match stripWhich with
  | none => []
  | some c => stripBinaries exitCode c binEntries

/-- Model of the strip call site in build_bison.run: stripping happens
only under the BISON_BIN_STRIP=1 flag. -/
def runStripStep (env : String → Option String)
    (exitCode : List String → Nat) (stripWhich : Option String)
    (binEntries : List (String × Bool)) : List (List String) :=
  if env "BISON_BIN_STRIP" = some "1" then
    stripPhase exitCode stripWhich binEntries
  else []

lemma mem_stripBinaries (exitCode : List String → Nat) (c : String) :
    ∀ (l : List (String × Bool)) (name : String),
      (name, true) ∈ l → [c, name] ∈ stripBinaries exitCode c l := by
  intro l
  induction l with
  | nil => intro name h; exact absurd h (List.not_mem_nil _)
  | cons e rest ih =>
    intro name h
    rcases List.mem_cons.mp h with heq | hrest
    · rw [← heq]
      unfold stripBinaries
      cases hcc : checkCall exitCode [c, name] <;> simp [hcc]
    · obtain ⟨n, b⟩ := e
      cases b with
      | false => simpa [stripBinaries] using ih name hrest
      | true =>
        unfold stripBinaries
        cases hcc : checkCall exitCode [c, n] <;>
          simp [hcc, List.mem_cons, ih name hrest]

lemma stripBinaries_exit_irrelevant (e1 e2 : List String → Nat) (c : String) :
    ∀ l, stripBinaries e1 c l = stripBinaries e2 c l := by
  intro l
  induction l with
  | nil => rfl
  | cons e rest ih =>
    obtain ⟨n, b⟩ := e
    cases b with
    | false => simpa [stripBinaries] using ih
    | true =>
      unfold stripBinaries
      cases checkCall e1 [c, n] <;> cases checkCall e2 [c, n] <;> simp [ih]

/-- C9: with stripping requested and a strip utility on PATH, every
regular file directly under bin is passed to strip and non-zero strip
exits are swallowed (the outcome is the same under any exit oracle),
whereas a non-zero exit of configure, make or make install makes the
build driver fail. -/
theorem strip_swallowed_build_fatal (env : String → Option String)
    (exitCode exitCode2 : List String → Nat) (c : String)
    (binEntries : List (String × Bool)) (project : String)
    (members : List FsPath) (workdir prefixDir : FsPath) (fs : FS)
    (extraConfig : List String)
    (hreq : env "BISON_BIN_STRIP" = some "1")
    (hcfg : pathExists ((extract members workdir fs).2 ++ ["configure"])
        (extract members workdir fs).1 = true) :
    (∀ name, (name, true) ∈ binEntries →
      [c, name] ∈ runStripStep env exitCode (some c) binEntries) ∧
    runStripStep env exitCode (some c) binEntries =
      runStripStep env exitCode2 (some c) binEntries ∧
    (exitCode (["bash", "./configure", "--prefix=" ++ pathStr prefixDir] ++
        extraConfig) ≠ 0 →
      (buildTarProject project members workdir prefixDir fs extraConfig
        exitCode).1 = .error "configure failed") ∧
    (exitCode (["bash", "./configure", "--prefix=" ++ pathStr prefixDir] ++
        extraConfig) = 0 → exitCode ["make"] ≠ 0 →
      (buildTarProject project members workdir prefixDir fs extraConfig
        exitCode).1 = .error "make failed") ∧
    (exitCode (["bash", "./configure", "--prefix=" ++ pathStr prefixDir] ++
        extraConfig) = 0 → exitCode ["make"] = 0 →
      exitCode ["make", "install"] ≠ 0 →
      (buildTarProject project members workdir prefixDir fs extraConfig
        exitCode).1 = .error "make install failed") := by
  refine ⟨?_, ?_, ?_, ?_, ?_⟩
  · intro name hmem
    unfold runStripStep
    rw [hreq]
    simp only [if_pos rfl]
    exact mem_stripBinaries exitCode c binEntries name hmem
  · unfold runStripStep stripPhase
    rw [hreq]
    simp only [if_pos rfl]
    exact stripBinaries_exit_irrelevant exitCode exitCode2 c binEntries
  · intro hc
    unfold buildTarProject
    dsimp only
    rw [hcfg]
    simp only [List.cons_append, List.nil_append] at hc
    simp [hc]
  · intro hc hm
    unfold buildTarProject
    dsimp only
    rw [hcfg]
    simp only [List.cons_append, List.nil_append] at hc
    simp [hc, hm]
  · intro hc hm hi
    unfold buildTarProject
    dsimp only
    rw [hcfg]
    simp only [List.cons_append, List.nil_append] at hc
    simp [hc, hm, hi]

/-- C9 witness: two regular files and a subdirectory under bin, an oracle
under which strip always fails, and an oracle under which make fails. -/
theorem strip_swallowed_build_fatal_witness :
    ((fun k => if k = "BISON_BIN_STRIP" then some "1" else none)
        "BISON_BIN_STRIP" = some "1") ∧
    ["strip", "bison"] ∈ runStripStep
      (fun k => if k = "BISON_BIN_STRIP" then some "1" else none)
      (fun _ => 1) (some "strip") [("bison", true), ("yacc", true), ("sub", false)] ∧
    runStripStep (fun k => if k = "BISON_BIN_STRIP" then some "1" else none)
      (fun _ => 1) (some "strip") [("bison", true), ("yacc", true), ("sub", false)] =
    runStripStep (fun k => if k = "BISON_BIN_STRIP" then some "1" else none)
      (fun _ => 0) (some "strip") [("bison", true), ("yacc", true), ("sub", false)] ∧
    (buildTarProject "bison" [["pkg"], ["pkg", "configure"]] ["work"] ["prefix"]
      [] [] (fun cmd => if cmd = ["make"] then 1 else 0)).1 =
      .error "make failed" := by
  obtain ⟨c1, c2, c3, c4, c5⟩ := strip_swallowed_build_fatal
    (fun k => if k = "BISON_BIN_STRIP" then some "1" else none)
    (fun _ => 1) (fun _ => 0) "strip"
    [("bison", true), ("yacc", true), ("sub", false)] "bison"
    [["pkg"], ["pkg", "configure"]] ["work"] ["prefix"] [] []
    rfl (by decide)
  refine ⟨rfl, c1 "bison" (by decide), c2, ?_⟩
  obtain ⟨d1, d2, d3, d4, d5⟩ := strip_swallowed_build_fatal
    (fun k => if k = "BISON_BIN_STRIP" then some "1" else none)
    (fun cmd => if cmd = ["make"] then 1 else 0) (fun _ => 0) "strip"
    [("bison", true), ("yacc", true), ("sub", false)] "bison"
    [["pkg"], ["pkg", "configure"]] ["work"] ["prefix"] [] []
    rfl (by decide)
  exact d4 (by decide) (by decide)

/-- Model of the stage-directory handling of build_bison in pdm_build.py:
a pre-existing stage root is removed, the work and downloads scratch
directories are created under it, and then the native build either
completes or raises (abstracted by the buildOk oracle). -/
def build_bison_stage (fs : FS) (stageRoot : FsPath) (buildOk : Bool) :
    Except String Unit × FS :=
  let fs1 := if pathExists stageRoot fs then rmtree stageRoot fs else fs
  let fs2 := (stageRoot ++ ["work"]) :: (stageRoot ++ ["downloads"]) :: fs1
  if buildOk then (.ok (), fs2) else (.error "build step failed", fs2)

/-- Model of the tail of pdm_build_initialize for a wheel build: call
build_bison, and only after it returns normally remove the stage root; an
exception from the build step propagates past the cleanup statement. -/
def pdm_build_initialize_wheel (fs : FS) (buildDir : FsPath)
    (buildOk : Bool) : Except String Unit × FS :=
  let stageRoot := buildDir ++ ["bison-stage"]
  match build_bison_stage fs stageRoot buildOk with
  | (.error e, fs2) => (.error e, fs2)
  | (.ok _, fs2) =>
    (.ok (), if pathExists stageRoot fs2 then rmtree stageRoot fs2 else fs2)

/-- Model of pdm_build_finalize in pdm_build.py: the hook body is pass. -/
def pdm_build_finalize (fs : FS) : FS :=
  fs

/-- C2 counterexample: when the native-build step raises partway, the
initialize hook propagates the exception before its cleanup statement and
the finalize hook does nothing, so the scratch work directory is still
present when the packaging lifecycle completes. -/
theorem cleanup_not_guaranteed_counterexample :
    (pdm_build_initialize_wheel [] ["build"] false).1 =
      Except.error "build step failed" ∧
    ["build", "bison-stage", "work"] ∈
      (pdm_build_initialize_wheel [] ["build"] false).2 ∧
    ["build", "bison-stage", "work"] ∈
      pdm_build_finalize (pdm_build_initialize_wheel [] ["build"] false).2 := by
  refine ⟨rfl, ?_, ?_⟩ <;> decide

/-- C2 amended: the scratch stage directories are removed when the
native-build step succeeds, but when it raises the work and downloads
directories survive both the initialize and the finalize hook. -/
theorem cleanup_success_only (fs : FS) (buildDir : FsPath) (buildOk : Bool) :
    (buildOk = true →
      ∀ p, (buildDir ++ ["bison-stage"]).isPrefixOf p = true →
        p ∉ pdm_build_finalize (pdm_build_initialize_wheel fs buildDir buildOk).2) ∧
    (buildOk = false →
      (buildDir ++ ["bison-stage"] ++ ["work"]) ∈
        pdm_build_finalize (pdm_build_initialize_wheel fs buildDir buildOk).2 ∧
      (buildDir ++ ["bison-stage"] ++ ["downloads"]) ∈
        pdm_build_finalize (pdm_build_initialize_wheel fs buildDir buildOk).2) := by
  constructor
  · intro hok p hpref
    subst hok
    unfold pdm_build_finalize pdm_build_initialize_wheel build_bison_stage
    dsimp only
    rw [if_pos rfl]
    dsimp only
    split
    all_goals
      split
      · exact not_mem_rmtree hpref
      · rename_i hnotex
        exfalso
        apply hnotex
        apply pathExists_of_mem (List.mem_cons_self _ _)
        rw [List.isPrefixOf_iff_prefix]
        exact List.prefix_append _ _
  · intro hko
    subst hko
    unfold pdm_build_finalize pdm_build_initialize_wheel build_bison_stage
    dsimp only
    rw [if_neg Bool.false_ne_true]
    dsimp only
    exact ⟨List.mem_cons_self _ _, List.mem_cons_of_mem _ (List.mem_cons_self _ _)⟩

/-- C2 amended witness: a concrete successful build leaves no stage
scratch path; a concrete failing build leaves the work directory. -/
theorem cleanup_success_only_witness :
    ((["b", "bison-stage"] : FsPath).isPrefixOf ["b", "bison-stage", "work"] = true) ∧
    ["b", "bison-stage", "work"] ∉
      pdm_build_finalize (pdm_build_initialize_wheel [] ["b"] true).2 ∧
    ["b", "bison-stage", "work"] ∈
      pdm_build_finalize (pdm_build_initialize_wheel [] ["b"] false).2 := by
  refine ⟨by decide, ?_, ?_⟩
  · exact (cleanup_success_only [] ["b"] true).1 rfl _ (by decide)
  · exact ((cleanup_success_only [] ["b"] false).2 rfl).1

/-- The default fallback version pinned in pdm_build.py. -/
def DEFAULT_BISON_FALLBACK : String :=
  "3.8.2"

/-- The pinned tarball filename in pdm_build.py. -/
def BISON_TARBALL : String :=
  "bison-" ++ DEFAULT_BISON_FALLBACK ++ ".tar.xz"

/-- The vendored tarball location, relative to the project root. -/
def VENDORED_TARBALL : FsPath :=
  ["src", "bison_bin", "_sources", BISON_TARBALL]

/-- The parent directory of the vendored tarball. -/
def SOURCES_DIR : FsPath :=
  ["src", "bison_bin", "_sources"]

/-- The per-build cache directory name in pdm_build.py. -/
def CACHE_TARBALL_DIRNAME : String :=
  "bison-source-cache"

/-- The cache location of the tarball inside the build directory. -/
def cacheTarballPath (buildDir : FsPath) : FsPath :=
  buildDir ++ [CACHE_TARBALL_DIRNAME, BISON_TARBALL]

/-- Model of the tarball handling in pdm_build_initialize for a wheel
build: when the vendored tarball exists it is copied into the per-build
cache, unlinked from the source tree, and its parent directory removed
when empty (the OSError of a non-empty rmdir is swallowed); otherwise the
tarball is downloaded into the cache unless already there. -/
def vendoredToCacheStep (buildDir : FsPath) (fs : FS) : FS :=
  let cacheT := cacheTarballPath buildDir
  if VENDORED_TARBALL ∈ fs then
    let fs1 := cacheT :: fs
    let fs2 := fs1.filter (fun p => p ≠ VENDORED_TARBALL)
    if fs2.any (fun p => SOURCES_DIR.isPrefixOf p && p != SOURCES_DIR) then fs2
    else fs2.filter (fun p => p ≠ SOURCES_DIR)
  else if cacheT ∈ fs then fs
  else cacheT :: fs

lemma cacheTarball_reverse (buildDir : FsPath) :
    (cacheTarballPath buildDir).reverse =
      BISON_TARBALL :: CACHE_TARBALL_DIRNAME :: buildDir.reverse := by
  unfold cacheTarballPath
  simp

lemma cacheTarball_ne_vendored (buildDir : FsPath) :
    cacheTarballPath buildDir ≠ VENDORED_TARBALL := by
  intro h
  have hrev := congrArg List.reverse h
  rw [cacheTarball_reverse, show VENDORED_TARBALL.reverse =
      [BISON_TARBALL, "_sources", "bison_bin", "src"] from by decide] at hrev
  injection hrev with h1 h2
  injection h2 with h3 h4
  exact absurd h3 (by decide)

lemma cacheTarball_ne_sources (buildDir : FsPath) :
    cacheTarballPath buildDir ≠ SOURCES_DIR := by
  intro h
  have hrev := congrArg List.reverse h
  rw [cacheTarball_reverse, show SOURCES_DIR.reverse =
      ["_sources", "bison_bin", "src"] from by decide] at hrev
  injection hrev with h1 h2
  exact absurd h1 (by decide)

/-- C10: when the vendored tarball exists at wheel-build initialize time,
the hook leaves a copy at the per-build cache path, the vendored tarball
itself no longer exists afterwards, and when nothing else lives under its
parent directory (and the cache path is not under it) the parent
directory is removed as well. -/
theorem vendored_moved_to_cache (buildDir : FsPath) (fs : FS)
    (hv : VENDORED_TARBALL ∈ fs) :
    cacheTarballPath buildDir ∈ vendoredToCacheStep buildDir fs ∧
    VENDORED_TARBALL ∉ vendoredToCacheStep buildDir fs ∧
    ((∀ p ∈ fs, SOURCES_DIR.isPrefixOf p = true →
        p = VENDORED_TARBALL ∨ p = SOURCES_DIR) →
      SOURCES_DIR.isPrefixOf (cacheTarballPath buildDir) = false →
      SOURCES_DIR ∉ vendoredToCacheStep buildDir fs) := by
  have hfs2 : ∀ q, q ∈ ((cacheTarballPath buildDir :: fs).filter
      (fun p => p ≠ VENDORED_TARBALL)) → q ≠ VENDORED_TARBALL := by
    intro q hq
    have := (List.mem_filter.mp hq).2
    simpa using this
  have hsplit : vendoredToCacheStep buildDir fs =
      (let fs2 := (cacheTarballPath buildDir :: fs).filter
        (fun p => p ≠ VENDORED_TARBALL)
      if fs2.any (fun p => SOURCES_DIR.isPrefixOf p && p != SOURCES_DIR) then fs2
      else fs2.filter (fun p => p ≠ SOURCES_DIR)) := by
    unfold vendoredToCacheStep
    rw [if_pos hv]
  refine ⟨?_, ?_, ?_⟩
  · rw [hsplit]
    dsimp only
    have hmem : cacheTarballPath buildDir ∈
        ((cacheTarballPath buildDir :: fs).filter
          (fun p => p ≠ VENDORED_TARBALL)) := by
      apply List.mem_filter.mpr
      refine ⟨List.mem_cons_self _ _, ?_⟩
      simpa using cacheTarball_ne_vendored buildDir
    split
    · exact hmem
    · exact List.mem_filter.mpr ⟨hmem, by
        simpa using cacheTarball_ne_sources buildDir⟩
  · rw [hsplit]
    dsimp only
    split
    · intro hmem
      exact hfs2 _ hmem rfl
    · intro hmem
      exact hfs2 _ (List.mem_filter.mp hmem).1 rfl
  · intro hEmpty hCache
    rw [hsplit]
    dsimp only
    have hany : ((cacheTarballPath buildDir :: fs).filter
        (fun p => p ≠ VENDORED_TARBALL)).any
        (fun p => SOURCES_DIR.isPrefixOf p && p != SOURCES_DIR) = false := by
      rw [List.any_eq_false]
      intro p hp
      rcases List.mem_cons.mp (List.mem_filter.mp hp).1 with hpc | hpf
      · subst hpc
        simp [hCache]
      · intro hcontra
        rcases Bool.and_eq_true_iff.mp hcontra with ⟨hpre, hne⟩
        rcases hEmpty p hpf hpre with hvend | hsrc
        · exact hfs2 p hp hvend
        · rw [hsrc] at hne
          simp at hne
    rw [hany]
    simp only [Bool.false_eq_true, if_false]
    intro hmem
    have := (List.mem_filter.mp hmem).2
    simp at this


/-- C10 witness: a source tree holding only the vendored tarball; after
the initialize step the tarball is in the cache and gone from the source
tree, along with its now-empty parent directory. -/
theorem vendored_moved_to_cache_witness :
    VENDORED_TARBALL ∈ ([VENDORED_TARBALL] : FS) ∧
    cacheTarballPath ["build"] ∈
      vendoredToCacheStep ["build"] [VENDORED_TARBALL] ∧
    VENDORED_TARBALL ∉ vendoredToCacheStep ["build"] [VENDORED_TARBALL] ∧
    SOURCES_DIR ∉ vendoredToCacheStep ["build"] [VENDORED_TARBALL] := by
  obtain ⟨c1, c2, c3⟩ :=
    vendored_moved_to_cache ["build"] [VENDORED_TARBALL] (by decide)
  exact ⟨by decide, c1, c2, c3 (by decide) (by decide)⟩
